import Mathlib

/-!
Verification development for the core of a minimal RESP key-value server
(`src/parser.rs`, `src/parser/rdb.rs`, `src/message.rs`, `src/config.rs`,
`src/main.rs`).  The Rust code is shallowly embedded: strings are `List Char`
(the parser operates on `&str`; all protocol-relevant content is ASCII, and
`str::len` coincides with the character count there), raw snapshot bytes are
`Nat`s below 256, machine integers are `Int`/`Nat` with explicit wrapping where
the source casts, and fallible parsers return `Option` (with `none` covering
both nom errors and — where noted — panics).
-/

namespace Redis

/-! ### Decimal numerals: Rust's `Display` for integers and `str::parse` -/

/-- The ASCII digit with value `d` (`d < 10`). -/
def digitChar (d : Nat) : Char := Char.ofNat (48 + d)

/-- Digit accumulator for `repNat`; the fuel (always at least `n + 1`) only
makes the recursion structural. -/
def repNatAux : Nat → Nat → List Char → List Char
  | 0, _, acc => acc
  | fuel + 1, n, acc =>
    if n < 10 then digitChar n :: acc
    else repNatAux fuel (n / 10) (digitChar (n % 10) :: acc)

/-- Decimal representation of a natural number, as produced by Rust's
`Display` for unsigned integers. -/
def repNat (n : Nat) : List Char := repNatAux (n + 1) n []

/-- Decimal representation of an integer (Rust `isize::to_string`). -/
def repInt (n : Int) : List Char :=
  if n < 0 then '-' :: repNat n.natAbs else repNat n.toNat

/-- Value of an ASCII digit, `none` on non-digits. -/
def charDigit (c : Char) : Option Nat :=
  if 48 ≤ c.toNat ∧ c.toNat ≤ 57 then some (c.toNat - 48) else none

/-- Accumulating decimal scan over a digit string. -/
def digitsAux : List Char → Nat → Option Nat
  | [], acc => some acc
  | c :: cs, acc =>
    match charDigit c with
    | some d => digitsAux cs (acc * 10 + d)
    | none => none

/-- Value of a non-empty all-digit string, `none` otherwise. -/
def digitsToNat : List Char → Option Nat
  | [] => none
  | c :: cs => digitsAux (c :: cs) 0

/-- Rust `str::parse::<isize>` on a 64-bit target: optional sign, decimal
digits, range check. -/
def parseIsize (s : List Char) : Option Int :=
  match s with
  | [] => none
  | c :: rest =>
    if c = '+' then
      (digitsToNat rest).bind (fun n => if n ≤ 2 ^ 63 - 1 then some ((n : Int)) else none)
    else if c = '-' then
      (digitsToNat rest).bind (fun n => if n ≤ 2 ^ 63 then some (-(n : Int)) else none)
    else
      (digitsToNat (c :: rest)).bind (fun n => if n ≤ 2 ^ 63 - 1 then some ((n : Int)) else none)

/-- Rust `str::parse::<usize>` on a 64-bit target: optional `+`, decimal
digits, range check (no `-` is accepted for unsigned targets). -/
def parseUsize (s : List Char) : Option Nat :=
  match s with
  | [] => none
  | c :: rest =>
    if c = '+' then
      (digitsToNat rest).bind (fun n => if n ≤ 2 ^ 64 - 1 then some n else none)
    else
      (digitsToNat (c :: rest)).bind (fun n => if n ≤ 2 ^ 64 - 1 then some n else none)

/-- The Rust cast `size as usize` for `size : isize`: two's-complement wrap
into `0 .. 2^64 - 1`. -/
def usizeOf (i : Int) : Nat := (i % (2 : Int) ^ 64).toNat

/-! ### Wire value model (`src/parser.rs`) -/

/-- `parser::BulkString`: `String(String) | Empty | Null`. -/
inductive BulkString where
  | str (s : List Char)
  | empty
  | null

/-- `parser::Value`, with the nested `Error {title, message}` struct and
`Array` enum (`Items | Empty | Null`) flattened into constructors.
`unsupported` mirrors the `#[non_exhaustive] Unsupported` variant. -/
inductive Value where
  | string (s : List Char)
  | bulkString (b : BulkString)
  | error (title message : List Char)
  | int (n : Int)
  | arrayItems (items : List Value)
  | arrayEmpty
  | arrayNull
  | unsupported

/-- `BulkString::inner`. -/
def BulkString.inner : BulkString → List Char
  | .str s => s
  | .empty => []
  | .null => []

/-- The protocol terminator `"\r\n"`. -/
def crlf : List Char := ['\r', '\n']

/-- `impl ToString for BulkString`. -/
def BulkString.to_string : BulkString → List Char
  | .str s => '$' :: (repNat s.length ++ crlf ++ s ++ crlf)
  | .empty => ['$', '0', '\r', '\n', '\r', '\n']
  | .null => ['$', '-', '1', '\r', '\n']

mutual

/-- `impl ToString for Value` (with the `Array` impl inlined).  Note the
`Error` arm renders `format!("-{}{}{}", title, sep, message)` with NO trailing
`\r\n`, exactly as the source does.  The `Unsupported` arm panics
(`unimplemented!`) in the source and is never reached here. -/
def Value.to_string : Value → List Char
  | .string s => '+' :: (s ++ crlf)
  | .bulkString b => BulkString.to_string b
  | .error t m => '-' :: (t ++ (if m.isEmpty then [] else [' ']) ++ m)
  | .int n => ':' :: (repInt n ++ crlf)
  | .arrayItems vs => '*' :: (repNat vs.length ++ crlf ++ encodeItems vs)
  | .arrayEmpty => ['*', '0', '\r', '\n']
  | .arrayNull => ['*', '-', '1', '\r', '\n']
  | .unsupported => []

/-- Concatenation of the encodings of array elements
(`arr.iter().map(ToString::to_string).collect::<String>()`). -/
def encodeItems : List Value → List Char
  | [] => []
  | v :: vs => Value.to_string v ++ encodeItems vs

end

/-! ### The RESP decoder (`src/parser.rs`)

nom combinators are embedded directly: `take_until("\r\n")` scans for the
first `"\r\n"`, `tag` is the leading-literal pattern of each `match`, `opt`
rewinds on failure, `map_res` composes with the numeric parse.  The decoder's
recursion (`arr` re-enters the alternation) is expressed with a fuel
parameter that strictly decreases on every recursive call; fuel exhaustion
yields `none`, and `parser` supplies `4 * length + 16` fuel, which is ample
since every successful sub-parse consumes at least one character and every
array header at least four. -/

/-- nom `take_until("\r\n")`: splits the input at the first `"\r\n"`, which is
left at the head of the remainder; fails when no `"\r\n"` occurs. -/
def takeUntilCRLF : List Char → Option (List Char × List Char)
  | [] => none
  | c :: rest =>
    if c = '\r' ∧ rest.head? = some '\n' then some ([], c :: rest)
    else
      match takeUntilCRLF rest with
      | some (pre, rem) => some (c :: pre, rem)
      | none => none

/-- `simple_str`: `+<text>\r\n`. -/
def simple_str (input : List Char) : Option (List Char × Value) :=
  match input with
  | '+' :: rest =>
    match takeUntilCRLF rest with
    | some (pre, rem) => some (rem.drop 2, .string pre)
    | none => none
  | _ => none

/-- `int`: `:<text>\r\n`, stripping one leading `+` before `parse::<isize>`. -/
def int (input : List Char) : Option (List Char × Value) :=
  match input with
  | ':' :: rest =>
    match takeUntilCRLF rest with
    | some (pre, rem) =>
      match (match pre with
             | '+' :: pre2 => parseIsize pre2
             | _ => parseIsize pre) with
      | some n => some (rem.drop 2, .int n)
      | none => none
    | none => none
  | _ => none

/-- `split_once(" ")`: split at the first space, `none` when there is none. -/
def splitOnceSpace : List Char → Option (List Char × List Char)
  | [] => none
  | c :: rest =>
    if c = ' ' then some ([], rest)
    else
      match splitOnceSpace rest with
      | some (a, b) => some (c :: a, b)
      | none => none

/-- `error`: `-<text>\r\n`, split at the first space into title/message. -/
def error (input : List Char) : Option (List Char × Value) :=
  match input with
  | '-' :: rest =>
    match takeUntilCRLF rest with
    | some (pre, rem) =>
      match splitOnceSpace pre with
      | some (t, m) => some (rem.drop 2, .error t m)
      | none => some (rem.drop 2, .error pre [])
    | none => none
  | _ => none

/-- `bulk_str`: header `$<len>\r\n` via `parse::<isize>`, then
`opt(terminated(take_until("\r\n"), tag("\r\n")))` as the body — the declared
length is never compared with the body, exactly as in the source. -/
def bulk_str (input : List Char) : Option (List Char × Value) :=
  match input with
  | '$' :: rest =>
    match takeUntilCRLF rest with
    | none => none
    | some (lenChars, rem) =>
      match parseIsize lenChars with
      | none => none
      | some size =>
        let next := rem.drop 2
        if size = -1 then some (next, .bulkString .null)
        else
          match takeUntilCRLF next with
          | some (pre, rem2) =>
            if size = 0 then some (rem2.drop 2, .bulkString .empty)
            else some (rem2.drop 2, .bulkString (.str pre))
          | none =>
            if size = 0 then some (next, .bulkString .empty)
            else some (next, .bulkString (.str []))
  | _ => none

/-- The array header `delimited(tag("*"), take_until("\r\n"), tag("\r\n"))`
composed with `parse::<isize>`. -/
def arrHead (input : List Char) : Option (List Char × Int) :=
  match input with
  | '*' :: rest =>
    match takeUntilCRLF rest with
    | some (pre, rem) =>
      match parseIsize pre with
      | some n => some (rem.drop 2, n)
      | none => none
    | none => none
  | _ => none

mutual

/-- The alternation `alt((simple_str, int, bulk_str, error, arr))`, used both
as the top-level `parser` and as the element parser inside `arr`. -/
def pval : Nat → List Char → Option (List Char × Value)
  | 0, _ => none
  | fuel + 1, input =>
    match simple_str input with
    | some r => some r
    | none =>
      match int input with
      | some r => some r
      | none =>
        match bulk_str input with
        | some r => some r
        | none =>
          match error input with
          | some r => some r
          | none => arr fuel input

/-- `arr`: header, then `opt(many_m_n(size as usize, size as usize, alt(..)))`
mapped through the `-1 / 0 / _` match; on `opt` failure the element vector is
`unwrap_or_default()`, i.e. `Items([])` with the input rewound to just after
the header. -/
def arr : Nat → List Char → Option (List Char × Value)
  | 0, _ => none
  | fuel + 1, input =>
    match arrHead input with
    | none => none
    | some (next, size) =>
      match manyExact fuel (usizeOf size) next with
      | some (rest, vs) =>
        if size = -1 then some (rest, .arrayNull)
        else if size = 0 then some (rest, .arrayEmpty)
        else some (rest, .arrayItems vs)
      | none =>
        if size = -1 then some (next, .arrayNull)
        else if size = 0 then some (next, .arrayEmpty)
        else some (next, .arrayItems [])

/-- nom `many_m_n(n, n, p)`: exactly `n` applications of the element parser,
with nom's no-progress guard; any shortfall is an error (caught by `opt`
in `arr`). -/
def manyExact : Nat → Nat → List Char → Option (List Char × List Value)
  | _, 0, input => some (input, [])
  | 0, _ + 1, _ => none
  | fuel + 1, n + 1, input =>
    match pval fuel input with
    | none => none
    | some (rest, v) =>
      if rest.length = input.length then none
      else
        match manyExact fuel n rest with
        | some (r, vs) => some (r, v :: vs)
        | none => none

end

/-- `pub fn parser`: the top-level alternation with ample fuel. -/
def parser (input : List Char) : Option (List Char × Value) :=
  pval (4 * input.length + 16) input

/-! ### Facts about decimal numerals -/

theorem charDigit_digitChar : ∀ d, d < 10 → charDigit (digitChar d) = some d := by decide

theorem digitChar_range : ∀ d, d < 10 → 48 ≤ (digitChar d).toNat ∧ (digitChar d).toNat ≤ 57 := by
  decide

theorem repNatAux_mem {fuel n : Nat} {acc : List Char}
    (hacc : ∀ c ∈ acc, 48 ≤ c.toNat ∧ c.toNat ≤ 57) :
    ∀ c ∈ repNatAux fuel n acc, 48 ≤ c.toNat ∧ c.toNat ≤ 57 := by
  induction fuel generalizing n acc with
  | zero => simpa [repNatAux] using hacc
  | succ fuel ih =>
    intro c hc
    rw [repNatAux] at hc
    split at hc
    · rcases List.mem_cons.mp hc with h | h
      · exact h ▸ digitChar_range n (by omega)
      · exact hacc c h
    · refine ih ?_ c hc
      intro c2 hc2
      rcases List.mem_cons.mp hc2 with h | h
      · exact h ▸ digitChar_range (n % 10) (Nat.mod_lt _ (by omega))
      · exact hacc c2 h

/-- Every character of a printed natural number is an ASCII digit. -/
theorem repNat_mem {n : Nat} : ∀ c ∈ repNat n, 48 ≤ c.toNat ∧ c.toNat ≤ 57 :=
  repNatAux_mem (by simp)

theorem repNatAux_ne_nil {fuel n : Nat} {acc : List Char} (h : fuel ≠ 0 ∨ acc ≠ []) :
    repNatAux fuel n acc ≠ [] := by
  induction fuel generalizing n acc with
  | zero => simpa [repNatAux] using h.resolve_left (by simp)
  | succ fuel ih =>
    rw [repNatAux]
    split
    · simp
    · exact ih (Or.inr (by simp))

theorem digitsAux_digitChar {d : Nat} (hd : d < 10) (acc : List Char) (k : Nat) :
    digitsAux (digitChar d :: acc) k = digitsAux acc (k * 10 + d) := by
  simp [digitsAux, charDigit_digitChar d hd]

theorem digitsAux_repNatAux (fuel n : Nat) (hfuel : n < fuel) :
    ∀ acc k, ∃ T, digitsAux (repNatAux fuel n acc) k = digitsAux acc (k * T + n) := by
  induction fuel generalizing n with
  | zero => omega
  | succ fuel ih =>
    intro acc k
    rw [repNatAux]
    split
    · exact ⟨10, digitsAux_digitChar (by omega) acc k⟩
    · rename_i hn
      have hpos : 0 < n := by omega
      have hlt : n / 10 < n := Nat.div_lt_self hpos (by omega)
      obtain ⟨T, hT⟩ := ih (n / 10) (by omega) (digitChar (n % 10) :: acc) k
      refine ⟨T * 10, ?_⟩
      rw [hT, digitsAux_digitChar (Nat.mod_lt _ (by omega))]
      congr 1
      have h3 : 10 * (n / 10) + n % 10 = n := Nat.div_add_mod n 10
      ring_nf
      omega

theorem digitsAux_repNat (n : Nat) : digitsAux (repNat n) 0 = some n := by
  obtain ⟨T, hT⟩ := digitsAux_repNatAux (n + 1) n (by omega) [] 0
  rw [repNat, hT]
  simp [digitsAux]

/-- Parsing inverts printing for natural numbers. -/
theorem digitsToNat_repNat (n : Nat) : digitsToNat (repNat n) = some n := by
  rcases h : repNat n with _ | ⟨c, cs⟩
  · exact absurd h (repNatAux_ne_nil (Or.inl (by omega)))
  · rw [digitsToNat, ← h, digitsAux_repNat]

/-- `parse::<isize>` inverts printing for in-range natural numbers. -/
theorem parseIsize_repNat (n : Nat) (h : n ≤ 2 ^ 63 - 1) :
    parseIsize (repNat n) = some ((n : Int)) := by
  rcases hr : repNat n with _ | ⟨c, cs⟩
  · exact absurd hr (repNatAux_ne_nil (Or.inl (by omega)))
  · have hc : 48 ≤ c.toNat ∧ c.toNat ≤ 57 :=
      repNat_mem c (hr ▸ List.mem_cons_self c cs)
    have hplus : c ≠ '+' := by
      intro he
      rw [he] at hc
      revert hc
      decide
    have hminus : c ≠ '-' := by
      intro he
      rw [he] at hc
      revert hc
      decide
    have h2 : n ≤ 9223372036854775807 := by omega
    rw [parseIsize, if_neg hplus, if_neg hminus, ← hr, digitsToNat_repNat]
    simp [h2]

/-! ### Facts about the RESP decoder -/

/-- `take_until("\r\n")` finds the terminator placed right after a
`'\r'`-free prefix. -/
theorem takeUntilCRLF_prepend (pre rest : List Char) (h : ∀ c ∈ pre, c ≠ '\r') :
    takeUntilCRLF (pre ++ '\r' :: '\n' :: rest) = some (pre, '\r' :: '\n' :: rest) := by
  induction pre with
  | nil => rw [List.nil_append, takeUntilCRLF]; simp
  | cons c pre ih =>
    rw [List.cons_append, takeUntilCRLF,
      if_neg (by simp [h c (List.mem_cons_self c pre)]),
      ih (fun c2 hc2 => h c2 (List.mem_cons_of_mem c hc2))]

/-- A successful `many_m_n(n, n, ..)` returns exactly `n` elements. -/
theorem manyExact_length (fuel : Nat) :
    ∀ n input rest vs, manyExact fuel n input = some (rest, vs) → vs.length = n := by
  induction fuel with
  | zero =>
    intro n input rest vs h
    cases n with
    | zero => rw [manyExact] at h; cases h; rfl
    | succ n => rw [manyExact] at h; cases h
  | succ fuel ih =>
    intro n input rest vs h
    cases n with
    | zero => rw [manyExact] at h; cases h; rfl
    | succ n =>
      rw [manyExact] at h
      cases hp : pval fuel input with
      | none => rw [hp] at h; cases h
      | some r =>
        obtain ⟨rest1, v⟩ := r
        rw [hp] at h
        dsimp only at h
        by_cases hlen : rest1.length = input.length
        · rw [if_pos hlen] at h; cases h
        · rw [if_neg hlen] at h
          cases hm : manyExact fuel n rest1 with
          | none => rw [hm] at h; cases h
          | some r2 =>
            obtain ⟨r3, vs2⟩ := r2
            rw [hm] at h
            dsimp only at h
            cases h
            simpa using ih n rest1 _ _ hm

/-! ### Claims C1, C2, C3 -/

/-- C1: the claim asserts `decode(encode v) = v` for all well-formed values
and `encode(decode bytes) = bytes` for canonical byte forms, with the Error
encoding ending in `"\r\n"`.  The code's `ToString` for `Value::Error` omits
the trailing `"\r\n"`: the encoding of `Error {title: "Error", message:
"message"}` is exactly `"-Error message"`, decoding that encoding fails
(no terminator), and re-encoding the decode of the canonical bytes
`"-Error message\r\n"` does not reproduce them. -/
theorem c1_error_encoding_drops_crlf :
    Value.to_string (Value.error "Error".data "message".data) = "-Error message".data
  ∧ parser (Value.to_string (Value.error "Error".data "message".data)) = none
  ∧ parser ("-Error message\r\n".data) = some ([], Value.error "Error".data "message".data)
  ∧ Value.to_string (Value.error "Error".data "message".data) ≠ "-Error message\r\n".data := by
  refine ⟨rfl, rfl, rfl, ?_⟩
  decide

/-- C2 counterexample: decoding `"*2\r\n:1\r\n"` — an array frame declaring
two elements over a buffer holding only one — neither fails nor returns two
elements: it succeeds with `Array::Items([])`, leaving the whole element
region unconsumed. -/
theorem c2_counterexample :
    parser ("*2\r\n:1\r\n".data) = some (":1\r\n".data, Value.arrayItems []) := rfl

/-- C2 (amended): for a declared count ≥ 1, array decoding never fails after
the header: either `many_m_n` decodes exactly `count` elements, and the
result is `Array::Items` of exactly those values with the remainder they
leave, or `many_m_n` fails (e.g. premature end of buffer), and decoding still
succeeds with `Array::Items([])`, consuming nothing past the header. -/
theorem c2_array_decode (fuel : Nat) (input next : List Char) (size : Int)
    (hhead : arrHead input = some (next, size)) (hsize : 1 ≤ size) :
    (∃ rest vs, manyExact fuel (usizeOf size) next = some (rest, vs)
        ∧ vs.length = usizeOf size
        ∧ arr (fuel + 1) input = some (rest, Value.arrayItems vs))
  ∨ (manyExact fuel (usizeOf size) next = none
        ∧ arr (fuel + 1) input = some (next, Value.arrayItems [])) := by
  have hne1 : size ≠ -1 := by omega
  have hne0 : size ≠ 0 := by omega
  cases hm : manyExact fuel (usizeOf size) next with
  | some r =>
    obtain ⟨rest, vs⟩ := r
    refine Or.inl ⟨rest, vs, rfl, manyExact_length fuel _ _ _ _ hm, ?_⟩
    rw [arr, hhead]
    dsimp only
    rw [hm]
    dsimp only
    rw [if_neg hne1, if_neg hne0]
  | none =>
    refine Or.inr ⟨rfl, ?_⟩
    rw [arr, hhead]
    dsimp only
    rw [hm]
    dsimp only
    rw [if_neg hne1, if_neg hne0]

/-- Witness for C2 at the concrete frame `"*1\r\n:5\r\nX"`. -/
theorem c2_array_decode_witness :
    (∃ rest vs, manyExact 8 (usizeOf 1) (":5\r\nX".data) = some (rest, vs)
        ∧ vs.length = usizeOf 1
        ∧ arr 9 ("*1\r\n:5\r\nX".data) = some (rest, Value.arrayItems vs))
  ∨ (manyExact 8 (usizeOf 1) (":5\r\nX".data) = none
        ∧ arr 9 ("*1\r\n:5\r\nX".data) = some (":5\r\nX".data, Value.arrayItems [])) :=
  c2_array_decode 8 ("*1\r\n:5\r\nX".data) (":5\r\nX".data) 1 rfl (by decide)

/-- C3 counterexample: `"$5\r\nab\r\n"` declares length 5 but carries a
2-character body; decoding silently accepts it as `BulkString("ab")`. -/
theorem c3_counterexample :
    bulk_str ("$5\r\nab\r\n".data) = some ([], Value.bulkString (BulkString.str "ab".data))
  ∧ ("ab".data).length ≠ 5 := ⟨rfl, by decide⟩

/-- C3 (amended): for any declared length ≥ 1 (within `isize` range) the body
is read with `take_until("\r\n")`, so the decoded text is whatever precedes
the first `"\r\n"` of the body — or `""` when the body has no terminator —
independent of the declared length; no length check is performed. -/
theorem c3_bulk_ignores_length (n : Nat) (body : List Char)
    (h1 : 1 ≤ n) (h2 : n ≤ 2 ^ 63 - 1) :
    bulk_str ('$' :: (repNat n ++ ('\r' :: '\n' :: body))) =
      match takeUntilCRLF body with
      | some (pre, rem) => some (rem.drop 2, Value.bulkString (BulkString.str pre))
      | none => some (body, Value.bulkString (BulkString.str [])) := by
  have hpre : ∀ c ∈ repNat n, c ≠ '\r' := by
    intro c hc he
    have hh := repNat_mem c hc
    rw [he] at hh
    revert hh
    decide
  have hne1 : (n : Int) ≠ -1 := by omega
  have hne0 : (n : Int) ≠ 0 := by omega
  rw [bulk_str, takeUntilCRLF_prepend (repNat n) body hpre]
  dsimp only
  rw [parseIsize_repNat n h2]
  dsimp only
  rw [if_neg hne1]
  simp only [List.drop_succ_cons, List.drop_zero]
  cases ht : takeUntilCRLF body with
  | some r =>
    obtain ⟨pre, rem2⟩ := r
    dsimp only
    rw [if_neg hne0]
  | none =>
    dsimp only
    rw [if_neg hne0]

/-- Witness for C3 at declared length 5 with 2-character body `"ab"`. -/
theorem c3_bulk_ignores_length_witness :
    bulk_str ('$' :: (repNat 5 ++ ('\r' :: '\n' :: "ab\r\ntail".data))) =
      match takeUntilCRLF ("ab\r\ntail".data) with
      | some (pre, rem) => some (rem.drop 2, Value.bulkString (BulkString.str pre))
      | none => some ("ab\r\ntail".data, Value.bulkString (BulkString.str [])) :=
  c3_bulk_ignores_length 5 ("ab\r\ntail".data) (by decide) (by decide)

/-! ### Command model (`src/message.rs`)

`TryFrom<Value> for RespMessage` is a Rust `match` whose arms carry guards;
it is embedded by grouping the arms by list shape while preserving the
source's arm order within each shape (arms for different lengths cannot
overlap).  The `.expect("could not parse expiry duration")` in the `SET`/`PX`
arm is a panic, modelled by the outer `Option` layer: `none` means the
classification panics. -/

/-- Rust `str::to_lowercase` (restricted to the ASCII case mapping). -/
def lowerStr (s : List Char) : List Char := s.map Char.toLower

/-- `message::RespMessage` (the source declares the last variant as
`Key(String)` even though `main.rs` matches it as `Keys`). -/
inductive RespMessage where
  | ping
  | echo (b : BulkString)
  | set (key : List Char) (val : Value) (expiry : Option Nat)
  | get (key : List Char)
  | configGet (key : List Char)
  | key (k : List Char)

/-- The `"Unsupported"` tag carried by classification errors. -/
def unsupportedTag : List Char := "Unsupported".data

/-- The `SET` arm's inner match on `rest`: a leading `[PX, millis, ..]` pair
(with `px` case-insensitive) selects the expiring form, parsing `millis`
with `parse::<usize>().expect(..)` — a panic (`none`) when that fails;
any other `rest` yields `expiry = None`. -/
def setArm (key : BulkString) (val : Value) (rest : List Value) :
    Option (Except (List Char × Value) RespMessage) :=
  match rest with
  | .bulkString px :: .bulkString millis :: _ =>
    if lowerStr px.inner = "px".data then
      match parseUsize millis.inner with
      | some n => some (.ok (.set key.inner val (some n)))
      | none => none
    else some (.ok (.set key.inner val none))
  | _ => some (.ok (.set key.inner val none))

/-- The arm list of `TryFrom<Value>` over `entry.as_slice()`, in source
order: GET, KEY, CONFIG GET, SET (length ≥ 3), ECHO, PING, else `Err`.
The source's two three-element arms (`[config, get, key]` of bulk strings,
then `[set, key, val]`) overlap on shape, so they appear here as one
three-element arm whose body first tries CONFIG GET (when the third element
is a bulk string) and then SET, preserving the source's arm order. -/
def classifyEntry (value : Value) (entry : List Value) :
    Option (Except (List Char × Value) RespMessage) :=
  match entry with
  | [.bulkString a, .bulkString b] =>
    if lowerStr a.inner = "get".data then some (.ok (.get b.inner))
    else if lowerStr a.inner = "key".data then some (.ok (.key b.inner))
    else if lowerStr a.inner = "echo".data then some (.ok (.echo b))
    else some (.error (unsupportedTag, value))
  | [.bulkString a, .bulkString b, c] =>
    match c with
    | .bulkString cc =>
      if lowerStr a.inner = "config".data ∧ lowerStr b.inner = "get".data then
        some (.ok (.configGet cc.inner))
      else if lowerStr a.inner = "set".data then setArm b (.bulkString cc) []
      else some (.error (unsupportedTag, value))
    | _ =>
      if lowerStr a.inner = "set".data then setArm b c []
      else some (.error (unsupportedTag, value))
  | .bulkString a :: .bulkString b :: c :: d :: rest =>
    if lowerStr a.inner = "set".data then setArm b c (d :: rest)
    else some (.error (unsupportedTag, value))
  | [.bulkString a] =>
    if lowerStr a.inner = "ping".data then some (.ok .ping)
    else some (.error (unsupportedTag, value))
  | _ => some (.error (unsupportedTag, value))

/-- `impl TryFrom<Value> for RespMessage`: only `Array::Items` is inspected;
everything else is `Err(("Unsupported", value))`. -/
def classify (value : Value) : Option (Except (List Char × Value) RespMessage) :=
  match value with
  | .arrayItems entry => classifyEntry value entry
  | _ => some (.error (unsupportedTag, value))

/-! ### Store, expiration and dispatcher (`src/main.rs`, `src/config.rs`)

Wall-clock (`SystemTime`) and monotonic (`Instant`) readings are passed as
explicit `Nat` parameters in a single time unit; `Instant::elapsed()` is
`monoNow - insert_at` (monotonic readings never precede the insertion). -/

/-- `main::Expiration`: `Empty | Date(SystemTime) | Period {duration, insert_at}`. -/
inductive Expiration where
  | empty
  | date (t : Nat)
  | period (duration : Nat) (insert_at : Nat)

/-- `main::DurableValue`. -/
structure DurableValue where
  val : Value
  expiration : Expiration

/-- `Expiration::elapsed`: `Date` compares `SystemTime::now() >= time`,
`Period` compares `insert_at.elapsed() > duration`, `Empty` is never
elapsed. -/
def Expiration.elapsed (e : Expiration) (wallNow monoNow : Nat) : Bool :=
  match e with
  | .empty => false
  | .date t => decide (wallNow ≥ t)
  | .period duration insert_at => decide (monoNow - insert_at > duration)

/-- The per-connection `HashMap<String, DurableValue>`, as an association
list with unique keys; only lookup/insert/remove/keys are used. -/
abbrev Store := List (List Char × DurableValue)

/-- `HashMap::get`. -/
def lookupKV : Store → List Char → Option DurableValue
  | [], _ => none
  | (k, dv) :: rest, key => if k = key then some dv else lookupKV rest key

/-- `HashMap::remove`. -/
def eraseKV (s : Store) (key : List Char) : Store :=
  s.filter (fun p => decide (p.1 ≠ key))

/-- `HashMap::insert` (replaces any previous binding for the key). -/
def insertKV (s : Store) (key : List Char) (dv : DurableValue) : Store :=
  (key, dv) :: eraseKV s key

/-- The `RespMessage::Get` arm of `handle_requests`: look the key up
(defaulting to a never-expiring `BulkString::Null`), evict and answer `Null`
when elapsed, otherwise answer the stored value. -/
def getCmd (store : Store) (key : List Char) (wallNow monoNow : Nat) : Value × Store :=
  let dv := (lookupKV store key).getD ⟨Value.bulkString BulkString.null, Expiration.empty⟩
  if dv.expiration.elapsed wallNow monoNow then
    (Value.bulkString BulkString.null, eraseKV store key)
  else (dv.val, store)

/-- `config::Config` (only the two optional strings matter here). -/
structure Config where
  dir : Option (List Char)
  filename : Option (List Char)

/-- `Config::dir_to_value`. -/
def Config.dir_to_value (c : Config) : Value :=
  match c.dir with
  | some d => Value.arrayItems
      [Value.bulkString (BulkString.str "dir".data), Value.bulkString (BulkString.str d)]
  | none => Value.arrayEmpty

/-- `Config::filename_to_value`: the source reads `self.dir` here — both for
presence and for the reply's second element — not `self.filename`. -/
def Config.filename_to_value (c : Config) : Value :=
  match c.dir with
  | some d => Value.arrayItems
      [Value.bulkString (BulkString.str "dbfilename".data), Value.bulkString (BulkString.str d)]
  | none => Value.arrayEmpty

/-- The `Keys` arm's reply: every stored key as a bulk string, with no
pattern matching and no expiration filtering. -/
def keysReply (store : Store) : Value :=
  Value.arrayItems (store.map (fun p => Value.bulkString (BulkString.str p.1)))

/-- One iteration of the `handle_requests` match over a classified message:
the updated store and the list of reply values written to the stream. -/
def handleMessage (msg : RespMessage) (store : Store) (cfg : Config)
    (wallNow monoNow : Nat) : Store × List Value :=
  match msg with
  | .ping => (store, [Value.string "PONG".data])
  | .echo b => (store, [Value.bulkString b])
  | .set k v (some millis) =>
    (insertKV store k ⟨v, .period millis monoNow⟩, [Value.string "OK".data])
  | .set k v none => (insertKV store k ⟨v, .empty⟩, [Value.string "OK".data])
  | .get k =>
    let r := getCmd store k wallNow monoNow
    (r.2, [r.1])
  | .configGet k =>
    if k = "dir".data then (store, [cfg.dir_to_value])
    else if k = "dbfilename".data then (store, [cfg.filename_to_value])
    else (store, [])
  | .key _ => (store, [keysReply store])

/-- One iteration of `handle_requests` on a successfully decoded value:
`val.try_into().unwrap()` panics (`none`) both when classification itself
panics and when it returns `Err` — no reply is written in either case. -/
def handleValue (v : Value) (store : Store) (cfg : Config) (wallNow monoNow : Nat) :
    Option (Store × List Value) :=
  match classify v with
  | none => none
  | some (.error _) => none
  | some (.ok msg) => some (handleMessage msg store cfg wallNow monoNow)

/-! ### Claims C4, C5, C6, C7, C10 -/

/-- The expiration predicate in the claim's words: an `AbsoluteDeadline`
entry is expired iff wall-clock now ≥ deadline, a `RelativeDeadline` entry is
expired iff the elapsed monotonic time since insertion exceeds its duration,
and an `Expiration::None` entry is never expired. -/
def expiredSpec (e : Expiration) (wallNow monoNow : Nat) : Bool :=
  match e with
  | .empty => false
  | .date deadline => decide (deadline ≤ wallNow)
  | .period duration insert_at => decide (duration < monoNow - insert_at)

/-- C4: `get(key)` returns `BulkString::Null` leaving the store unchanged
when the key is absent; for a present entry it evaluates exactly the claim's
expiration predicate (`expiredSpec`), removing the entry and returning
`Null` when expired, and returning the stored value with the store unchanged
otherwise. -/
theorem c4_get_expiration (store : Store) (key : List Char) (wallNow monoNow : Nat) :
    getCmd store key wallNow monoNow =
      match lookupKV store key with
      | none => (Value.bulkString BulkString.null, store)
      | some dv =>
        if expiredSpec dv.expiration wallNow monoNow
        then (Value.bulkString BulkString.null, eraseKV store key)
        else (dv.val, store) := by
  have he : ∀ e, Expiration.elapsed e wallNow monoNow = expiredSpec e wallNow monoNow := by
    intro e
    cases e <;> rfl
  cases h : lookupKV store key with
  | none => simp [getCmd, h, Expiration.elapsed]
  | some dv => simp [getCmd, h, he]

/-- C5: the claim says `[KEYS, pattern]` classifies to the keys command.
The classifier only recognizes the keyword `KEY` (lower-cased `"key"`):
`[KEYS, *]` is `Err(("Unsupported", ..))`, on which the dispatcher's
`try_into().unwrap()` panics with no reply, while `[KEY, *]` classifies.
The reply to the classified command does list every stored key — including
an entry whose deadline has already passed — and is identical for any
pattern. -/
theorem c5_keys_keyword_mismatch :
    classify (Value.arrayItems
        [Value.bulkString (BulkString.str "KEYS".data), Value.bulkString (BulkString.str "*".data)])
      = some (.error (unsupportedTag, Value.arrayItems
          [Value.bulkString (BulkString.str "KEYS".data),
           Value.bulkString (BulkString.str "*".data)]))
  ∧ handleValue (Value.arrayItems
        [Value.bulkString (BulkString.str "KEYS".data), Value.bulkString (BulkString.str "*".data)])
      [] ⟨none, none⟩ 0 0 = none
  ∧ classify (Value.arrayItems
        [Value.bulkString (BulkString.str "KEY".data), Value.bulkString (BulkString.str "*".data)])
      = some (.ok (.key "*".data))
  ∧ handleMessage (.key "*".data)
        [("a".data, ⟨Value.int 1, Expiration.empty⟩), ("b".data, ⟨Value.int 2, Expiration.date 0⟩)]
        ⟨none, none⟩ 5 5
      = ([("a".data, ⟨Value.int 1, Expiration.empty⟩), ("b".data, ⟨Value.int 2, Expiration.date 0⟩)],
         [Value.arrayItems [Value.bulkString (BulkString.str "a".data),
            Value.bulkString (BulkString.str "b".data)]])
  ∧ handleMessage (.key "zzz".data)
        [("a".data, ⟨Value.int 1, Expiration.empty⟩), ("b".data, ⟨Value.int 2, Expiration.date 0⟩)]
        ⟨none, none⟩ 5 5
      = ([("a".data, ⟨Value.int 1, Expiration.empty⟩), ("b".data, ⟨Value.int 2, Expiration.date 0⟩)],
         [Value.arrayItems [Value.bulkString (BulkString.str "a".data),
            Value.bulkString (BulkString.str "b".data)]]) := ⟨rfl, rfl, rfl, rfl, rfl⟩

/-- C6: with `dir = "/tmp"` and `dbfilename = "dump.rdb"` configured, the
reply to `CONFIG GET dbfilename` is `["dbfilename", "/tmp"]` — the `dir`
value, not the `dbfilename` value — because `filename_to_value` reads
`self.dir`; with `dir` absent the reply is the empty array even though the
`dbfilename` value is present.  `CONFIG GET dir` behaves as claimed. -/
theorem c6_config_get_dbfilename_bug :
    handleMessage (.configGet "dbfilename".data) [] ⟨some "/tmp".data, some "dump.rdb".data⟩ 0 0
      = ([], [Value.arrayItems [Value.bulkString (BulkString.str "dbfilename".data),
          Value.bulkString (BulkString.str "/tmp".data)]])
  ∧ handleMessage (.configGet "dbfilename".data) [] ⟨none, some "dump.rdb".data⟩ 0 0
      = ([], [Value.arrayEmpty])
  ∧ handleMessage (.configGet "dir".data) [] ⟨some "/tmp".data, some "dump.rdb".data⟩ 0 0
      = ([], [Value.arrayItems [Value.bulkString (BulkString.str "dir".data),
          Value.bulkString (BulkString.str "/tmp".data)]]) := ⟨rfl, rfl, rfl⟩

/-- C7: a well-formed value of unrecognized shape (`[FOO]`) classifies to
`Err(("Unsupported", ..))`, and the handler's `try_into().unwrap()` panics
(`none`): no wire `Error` reply is produced and the connection thread dies,
contrary to the claim. -/
theorem c7_unclassified_panics :
    classify (Value.arrayItems [Value.bulkString (BulkString.str "FOO".data)])
      = some (.error (unsupportedTag,
          Value.arrayItems [Value.bulkString (BulkString.str "FOO".data)]))
  ∧ handleValue (Value.arrayItems [Value.bulkString (BulkString.str "FOO".data)])
      [] ⟨none, none⟩ 0 0 = none := ⟨rfl, rfl⟩

/-- The `SET` arm panics exactly when `rest` opens with a case-insensitive
`PX` bulk string followed by a bulk string that `parse::<usize>` rejects. -/
theorem setArm_none_iff (key : BulkString) (val : Value) (rest : List Value) :
    setArm key val rest = none ↔
      ∃ px millis tail, rest = Value.bulkString px :: Value.bulkString millis :: tail
        ∧ lowerStr px.inner = "px".data ∧ parseUsize millis.inner = none := by
  constructor
  · intro h
    rcases rest with _ | ⟨r1, _ | ⟨r2, tail⟩⟩
    · simp [setArm] at h
    · cases r1 <;> simp [setArm] at h
    · cases r1
      case bulkString px =>
        cases r2
        case bulkString millis =>
          rw [show setArm key val (Value.bulkString px :: Value.bulkString millis :: tail)
              = if lowerStr px.inner = "px".data then
                  (match parseUsize millis.inner with
                   | some n => some (.ok (.set key.inner val (some n)))
                   | none => none)
                else some (.ok (.set key.inner val none)) from rfl] at h
          by_cases hpx : lowerStr px.inner = "px".data
          · rw [if_pos hpx] at h
            cases hp : parseUsize millis.inner with
            | none => exact ⟨px, millis, tail, rfl, hpx, hp⟩
            | some n => rw [hp] at h; cases h
          · rw [if_neg hpx] at h; cases h
        all_goals simp [setArm] at h
      all_goals simp [setArm] at h
  · rintro ⟨px, millis, tail, rfl, hpx, hm⟩
    rw [show setArm key val (Value.bulkString px :: Value.bulkString millis :: tail)
        = if lowerStr px.inner = "px".data then
            (match parseUsize millis.inner with
             | some n => some (.ok (.set key.inner val (some n)))
             | none => none)
          else some (.ok (.set key.inner val none)) from rfl, if_pos hpx, hm]

/-- C10: classification panics (`none`) exactly on command arrays of the
shape `[SET, key, value, PX, millis, ..]` (keywords case-insensitive, the
first two and the `PX`/`millis` positions bulk strings) whose `millis` does
not parse as an unsigned 64-bit decimal integer; every other value is
classified without panicking. -/
theorem c10_classification_panics_iff (v : Value) :
    classify v = none ↔
      ∃ a b val px millis rest,
        v = Value.arrayItems (Value.bulkString a :: Value.bulkString b :: val ::
              Value.bulkString px :: Value.bulkString millis :: rest)
        ∧ lowerStr a.inner = "set".data
        ∧ lowerStr px.inner = "px".data
        ∧ parseUsize millis.inner = none := by
  constructor
  · intro h
    cases v
    case arrayItems entry =>
      rw [show classify (Value.arrayItems entry) = classifyEntry (Value.arrayItems entry) entry
          from rfl] at h
      rcases entry with _ | ⟨e1, t1⟩
      · simp [classifyEntry] at h
      rcases t1 with _ | ⟨e2, t2⟩
      · cases e1 <;> simp only [classifyEntry] at h <;>
          first
          | cases h
          | (split_ifs at h <;> simp_all [setArm])
      rcases t2 with _ | ⟨e3, t3⟩
      · cases e1 <;> cases e2 <;> simp only [classifyEntry] at h <;>
          first
          | cases h
          | (split_ifs at h <;> simp_all [setArm])
      rcases t3 with _ | ⟨e4, t4⟩
      · cases e1 <;> cases e2 <;> cases e3 <;> simp only [classifyEntry] at h <;>
          first
          | cases h
          | (split_ifs at h <;> simp_all [setArm])
      · cases e1
        case bulkString a =>
          cases e2
          case bulkString b =>
            rw [show classifyEntry (Value.arrayItems (Value.bulkString a :: Value.bulkString b
                  :: e3 :: e4 :: t4)) (Value.bulkString a :: Value.bulkString b :: e3 :: e4 :: t4)
                = if lowerStr a.inner = "set".data then setArm b e3 (e4 :: t4)
                  else some (.error (unsupportedTag, Value.arrayItems (Value.bulkString a ::
                    Value.bulkString b :: e3 :: e4 :: t4))) from rfl] at h
            by_cases hset : lowerStr a.inner = "set".data
            · rw [if_pos hset] at h
              obtain ⟨px, millis, tail, htail, hpx, hm⟩ := (setArm_none_iff b e3 (e4 :: t4)).mp h
              exact ⟨a, b, e3, px, millis, tail, by rw [htail], hset, hpx, hm⟩
            · rw [if_neg hset] at h; cases h
          all_goals simp [classifyEntry] at h
        all_goals simp [classifyEntry] at h
    all_goals simp [classify] at h
  · rintro ⟨a, b, val, px, millis, rest, rfl, ha, hpx, hm⟩
    rw [show classify (Value.arrayItems (Value.bulkString a :: Value.bulkString b :: val ::
          Value.bulkString px :: Value.bulkString millis :: rest))
        = if lowerStr a.inner = "set".data then
            setArm b val (Value.bulkString px :: Value.bulkString millis :: rest)
          else some (.error (unsupportedTag, Value.arrayItems (Value.bulkString a ::
            Value.bulkString b :: val :: Value.bulkString px :: Value.bulkString millis :: rest)))
        from rfl, if_pos ha,
      show setArm b val (Value.bulkString px :: Value.bulkString millis :: rest)
        = if lowerStr px.inner = "px".data then
            (match parseUsize millis.inner with
             | some n => some (.ok (.set b.inner val (some n)))
             | none => none)
          else some (.ok (.set b.inner val none)) from rfl, if_pos hpx, hm]

/-! ### Snapshot decoder (`src/parser/rdb.rs`)

The snapshot decoder works on raw bytes, embedded as `Nat`s below 256 (the
values a file read produces).  Only the parts the claims mention are
embedded: the length encoding, the string decoder, and the
key-value/database section parsers. -/

namespace Rdb

/-- nom `be_u8`. -/
def be_u8 : List Nat → Option (List Nat × Nat)
  | b :: rest => some (rest, b)
  | [] => none

/-- nom `be_u32` (big-endian). -/
def be_u32 : List Nat → Option (List Nat × Nat)
  | b0 :: b1 :: b2 :: b3 :: rest => some (rest, ((b0 * 256 + b1) * 256 + b2) * 256 + b3)
  | _ => none

/-- nom `be_u64` (big-endian). -/
def be_u64 : List Nat → Option (List Nat × Nat)
  | b0 :: b1 :: b2 :: b3 :: b4 :: b5 :: b6 :: b7 :: rest =>
    some (rest,
      ((((((b0 * 256 + b1) * 256 + b2) * 256 + b3) * 256 + b4) * 256 + b5) * 256 + b6) * 256 + b7)
  | _ => none

/-- nom `be_i8` (two's complement). -/
def be_i8 : List Nat → Option (List Nat × Int)
  | b :: rest => some (rest, if b < 128 then ((b : Int)) else ((b : Int)) - 256)
  | [] => none

/-- nom `be_i16` (big-endian two's complement). -/
def be_i16 : List Nat → Option (List Nat × Int)
  | b0 :: b1 :: rest =>
    some (rest,
      if b0 * 256 + b1 < 2 ^ 15 then ((b0 * 256 + b1 : Nat) : Int)
      else ((b0 * 256 + b1 : Nat) : Int) - 2 ^ 16)
  | _ => none

/-- nom `be_i32` (big-endian two's complement). -/
def be_i32 : List Nat → Option (List Nat × Int)
  | b0 :: b1 :: b2 :: b3 :: rest =>
    some (rest,
      if ((b0 * 256 + b1) * 256 + b2) * 256 + b3 < 2 ^ 31 then
        ((((b0 * 256 + b1) * 256 + b2) * 256 + b3 : Nat) : Int)
      else ((((b0 * 256 + b1) * 256 + b2) * 256 + b3 : Nat) : Int) - 2 ^ 32)
  | _ => none

/-- `rdb::LenEncoded`. -/
inductive LenEncoded where
  | num (n : Nat)
  | special (flag : Nat)
deriving DecidableEq

/-- `rdb::len`: dispatch on the top two bits of the first byte. -/
def len : List Nat → Option (List Nat × LenEncoded)
  | [] => none
  | b :: next =>
    if b >>> 6 = 0 then some (next, .num (b &&& 63))
    else if b >>> 6 = 1 then
      match next with
      | ex :: next2 => some (next2, .num (((b &&& 63) <<< 8) ||| ex))
      | [] => none
    else if b >>> 6 = 2 then
      match be_u32 next with
      | some (r, n) => some (r, .num n)
      | none => none
    else if b >>> 6 = 3 then some (next, .special (b &&& 63))
    else none

/-- `rdb::DBString` (`Lzf` is declared in the source but never constructed:
the compressed-string arm is a hard decode error). -/
inductive DBString where
  | int (n : Int)
  | str (s : List Char)
deriving DecidableEq

/-- Strict UTF-8 decoding of raw bytes into characters
(`std::str::from_utf8`): rejects stray continuations, overlong forms,
surrogates and values above `0x10FFFF`. -/
def utf8Decode : List Nat → Option (List Char)
  | [] => some []
  | b :: rest =>
    if b < 0x80 then
      match utf8Decode rest with
      | some cs => some (Char.ofNat b :: cs)
      | none => none
    else if b < 0xC2 then none
    else if b < 0xE0 then
      match rest with
      | b1 :: rest1 =>
        if 0x80 ≤ b1 ∧ b1 < 0xC0 then
          match utf8Decode rest1 with
          | some cs => some (Char.ofNat ((b - 0xC0) * 64 + (b1 - 0x80)) :: cs)
          | none => none
        else none
      | [] => none
    else if b < 0xF0 then
      match rest with
      | b1 :: b2 :: rest2 =>
        if (0x80 ≤ b1 ∧ b1 < 0xC0) ∧ (0x80 ≤ b2 ∧ b2 < 0xC0)
            ∧ (b = 0xE0 → 0xA0 ≤ b1) ∧ (b = 0xED → b1 < 0xA0) then
          match utf8Decode rest2 with
          | some cs =>
            some (Char.ofNat ((b - 0xE0) * 4096 + (b1 - 0x80) * 64 + (b2 - 0x80)) :: cs)
          | none => none
        else none
      | _ => none
    else if b < 0xF5 then
      match rest with
      | b1 :: b2 :: b3 :: rest3 =>
        if (0x80 ≤ b1 ∧ b1 < 0xC0) ∧ (0x80 ≤ b2 ∧ b2 < 0xC0) ∧ (0x80 ≤ b3 ∧ b3 < 0xC0)
            ∧ (b = 0xF0 → 0x90 ≤ b1) ∧ (b = 0xF4 → b1 < 0x90) then
          match utf8Decode rest3 with
          | some cs =>
            some (Char.ofNat ((b - 0xF0) * 262144 + (b1 - 0x80) * 4096
              + (b2 - 0x80) * 64 + (b3 - 0x80)) :: cs)
          | none => none
        else none
      | _ => none
    else none

/-- nom `take(n)`. -/
def takeN (n : Nat) (input : List Nat) : Option (List Nat × List Nat) :=
  if n ≤ input.length then some (input.drop n, input.take n) else none

/-- `rdb::string`: a plain length reads that many raw bytes as UTF-8 text;
special codes 0/1/2 read an embedded signed integer; code 3 (Lzf) and all
other codes are decode errors. -/
def string (input : List Nat) : Option (List Nat × DBString) :=
  match len input with
  | none => none
  | some (next, .num num) =>
    match takeN num next with
    | some (rest, bytes) =>
      match utf8Decode bytes with
      | some s => some (rest, .str s)
      | none => none
    | none => none
  | some (next, .special flag) =>
    if flag = 0 then
      match be_i8 next with
      | some (r, n) => some (r, .int n)
      | none => none
    else if flag = 1 then
      match be_i16 next with
      | some (r, n) => some (r, .int n)
      | none => none
    else if flag = 2 then
      match be_i32 next with
      | some (r, n) => some (r, .int n)
      | none => none
    else none

/-- `rdb::Value` (only string values are supported). -/
inductive Value where
  | string (s : DBString)
deriving DecidableEq

/-- `rdb::KVPair`. -/
structure KVPair where
  key : DBString
  value : Value
  expiration : Option Nat
deriving DecidableEq

/-- `rdb::ResizeDBAttr`. -/
structure ResizeDBAttr where
  hash_table_size : Nat
  expire_hash_table_size : Nat
deriving DecidableEq

/-- `rdb::DB`. -/
structure DB where
  number : Nat
  resize_db : Option ResizeDBAttr
  key_value_pairs : List KVPair
deriving DecidableEq

/-- The body of `kv_pair` after the optional expiration marker: value-type
byte, key string, then (only for type 0) the value string. -/
def kvBody (input : List Nat) (expiration : Option Nat) : Option (List Nat × KVPair) :=
  match be_u8 input with
  | none => none
  | some (r1, value_type) =>
    match string r1 with
    | none => none
    | some (r2, key) =>
      if value_type = 0 then
        match string r2 with
        | some (r3, v) => some (r3, ⟨key, .string v, expiration⟩)
        | none => none
      else none

/-- `rdb::kv_pair`: `opt(alt(tag([0xFD]), tag([0xFC])))` selects a 4-byte
seconds or 8-byte milliseconds expiration, then the record body. -/
def kv_pair (input : List Nat) : Option (List Nat × KVPair) :=
  match input with
  | 0xFD :: rest =>
    match be_u32 rest with
    | some (r1, secs) => kvBody r1 (some secs)
    | none => none
  | 0xFC :: rest =>
    match be_u64 rest with
    | some (r1, ms) => kvBody r1 (some ms)
    | none => none
  | _ => kvBody input none

/-- `map_len(len)` (`use_len`): a length that resolves to a special code is
a decode error. -/
def use_len (input : List Nat) : Option (List Nat × Nat) :=
  match len input with
  | some (next, .num n) => some (next, n)
  | some (_, .special _) => none
  | none => none

/-- `rdb::db_number`: `0xFE` then a plain length-encoded number. -/
def db_number (input : List Nat) : Option (List Nat × Nat) :=
  match input with
  | 0xFE :: rest => use_len rest
  | _ => none

/-- `rdb::resize_db`: optional `0xFB` plus two plain lengths; `opt` rewinds
to the original input on any failure. -/
def resize_db (input : List Nat) : Option (List Nat × Option ResizeDBAttr) :=
  match input with
  | 0xFB :: rest =>
    match use_len rest with
    | some (r1, l1) =>
      match use_len r1 with
      | some (r2, l2) => some (r2, some ⟨l1, l2⟩)
      | none => some (input, none)
    | none => some (input, none)
  | _ => some (input, none)

/-- nom `many_till(kv_pair, alt((tag([0xFE]), tag([0xFF]))))`, keeping only
the collected records (the source discards the resulting input position).
Fuel (`length + 1` at the call site) only makes the recursion structural;
a successful `kv_pair` always consumes. -/
def manyTillKV : Nat → List Nat → Option (List KVPair)
  | fuel, input =>
    if input.head? = some 0xFE ∨ input.head? = some 0xFF then some []
    else
      match fuel with
      | 0 => none
      | fuel + 1 =>
        match kv_pair input with
        | none => none
        | some (rest, kv) =>
          if rest.length = input.length then none
          else
            match manyTillKV fuel rest with
            | some kvs => some (kv :: kvs)
            | none => none

/-- `input.iter().position(|x| x == 0xFE || x == 0xFF)`. -/
def posFEFF : List Nat → Option Nat
  | [] => none
  | b :: rest =>
    if b = 0xFE ∨ b = 0xFF then some 0
    else
      match posFEFF rest with
      | some i => some (i + 1)
      | none => none

/-- `rdb::db`: number, optional resize hint, records via `many_till` — whose
final position is discarded; the remainder is rebuilt by scanning for the
FIRST `0xFE`/`0xFF` byte of the record region (`position(..).unwrap()`,
`none` on the unreachable empty case). -/
def db (input : List Nat) : Option (List Nat × DB) :=
  match db_number input with
  | none => none
  | some (next, number) =>
    match resize_db next with
    | none => none
    | some (next2, rsz) =>
      match manyTillKV (next2.length + 1) next2 with
      | none => none
      | some kvs =>
        match posFEFF next2 with
        | some index => some (next2.drop index, ⟨number, rsz, kvs⟩)
        | none => none

/-! ### Claims C8 and C9 -/

/-- C8: the length decoder and string decoder on the claim's literal table:
plain lengths `0`, `63`, `13417`, `4294967295`, and the special codes 0/1/2
decoding the embedded integers `125`, `-9332`, `634645842`. -/
theorem c8_length_table :
    len [0x00] = some ([], .num 0)
  ∧ len [0x3F] = some ([], .num 63)
  ∧ len [0x74, 0x69] = some ([], .num 13417)
  ∧ len [0xAB, 0xFF, 0xFF, 0xFF, 0xFF] = some ([], .num 4294967295)
  ∧ string [0xC0, 0x7D] = some ([], .int 125)
  ∧ string [0xC1, 0xDB, 0x8C] = some ([], .int (-9332))
  ∧ string [0xC2, 0x25, 0xD3, 0xED, 0x52] = some ([], .int 634645842) :=
  ⟨rfl, rfl, rfl, rfl, rfl, rfl, rfl⟩

/-- C9: decoding the database section `FE 00 | 00 C0 FF C0 01 | FF` — one
record whose integer-encoded key contains the byte `0xFF` — succeeds, but
the returned remainder starts at that interior `0xFF` (offset 2 of the
record region), i.e. inside the already-consumed key token, not at the
section-terminating `0xFF`. -/
theorem c9_db_remainder_backtracks :
    db [0xFE, 0x00, 0x00, 0xC0, 0xFF, 0xC0, 0x01, 0xFF]
      = some ([0xFF, 0xC0, 0x01, 0xFF],
          ⟨0, none, [⟨DBString.int (-1), Value.string (DBString.int 1), none⟩]⟩)
  ∧ ([0xFF, 0xC0, 0x01, 0xFF] : List Nat) ≠ [0xFF] := ⟨rfl, by decide⟩

end Rdb

end Redis
